import Mathlib

/-!
Shallow embedding of the `ofblockmeshdicthelper` single-module Python library
(blockMeshDict builder for OpenFOAM) and a verification of its documented
behaviour.

Modelling conventions:
* Python objects with identity (the `Vertex` records held by the document,
  and the mutable face lists held by `Boundary` objects) are modelled by
  explicit heaps: association lists from numeric ids to values carried
  inside the document state.  Rebinding a registry name to an existing
  record (as `reduce_vertex` does) stores the same id, which models Python
  reference aliasing exactly.
* Python `dict`s are association lists with Python's update semantics:
  assignment replaces the value of an existing key in place and appends a
  new key at the end; iteration order is list order, matching Python's
  insertion-ordered dicts.
* Python `set`s of strings are lists; `set.update` is `unionAdd`, which
  preserves membership semantics.
* Numbers are modelled by `Rat` (exact values of the numeric literals in
  the source).
* Operations that can raise `KeyError` / `IndexError` return `Option`.
-/

/-- Python `d[k]` on an association list: first entry with the given key. -/
def dictGet? {α β : Type} [DecidableEq α] : List (α × β) → α → Option β
  | [], _ => none
  | (k, v) :: rest, k' => if k = k' then some v else dictGet? rest k'

/-- Python `d[k] = v`: replace the value at an existing key in place,
append the pair at the end otherwise. -/
def dictSet {α β : Type} [DecidableEq α] : List (α × β) → α → β → List (α × β)
  | [], k, v => [(k, v)]
  | (k0, v0) :: rest, k, v =>
      if k0 = k then (k0, v) :: rest else (k0, v0) :: dictSet rest k v

/-- Mutate the value stored at a key in place (models attribute assignment
on a heap-allocated object). -/
def dictModify {α β : Type} [DecidableEq α] : List (α × β) → α → (β → β) → List (α × β)
  | [], _, _ => []
  | (k0, v0) :: rest, k, f =>
      if k0 = k then (k0, f v0) :: rest else (k0, v0) :: dictModify rest k f

theorem dictGet?_dictSet {α β : Type} [DecidableEq α] (l : List (α × β)) (k k' : α) (v : β) :
    dictGet? (dictSet l k v) k' = if k = k' then some v else dictGet? l k' := by
  induction l with
  | nil => by_cases h : k = k' <;> simp [dictSet, dictGet?, h]
  | cons p rest ih =>
      obtain ⟨k0, v0⟩ := p
      by_cases h0 : k0 = k
      · subst h0
        by_cases h' : k0 = k' <;> simp [dictSet, dictGet?, h']
      · by_cases h' : k0 = k'
        · subst h'
          have hkk' : ¬ k = k0 := fun h => h0 h.symm
          simp [dictSet, dictGet?, h0, hkk']
        · simp [dictSet, dictGet?, h0, h', ih]

theorem dictSet_self {α β : Type} [DecidableEq α] (l : List (α × β)) (k : α) (v : β)
    (h : dictGet? l k = some v) : dictSet l k v = l := by
  induction l with
  | nil => simp [dictGet?] at h
  | cons p rest ih =>
      obtain ⟨k0, v0⟩ := p
      by_cases h0 : k0 = k
      · subst h0
        simp [dictGet?] at h
        simp [dictSet, h]
      · simp [dictGet?, h0] at h
        simp [dictSet, h0, ih h]

theorem dictGet?_dictModify {α β : Type} [DecidableEq α]
    (l : List (α × β)) (k k' : α) (f : β → β) :
    dictGet? (dictModify l k f) k' =
      if k = k' then (dictGet? l k).map f else dictGet? l k' := by
  induction l with
  | nil => by_cases h : k = k' <;> simp [dictModify, dictGet?, h]
  | cons p rest ih =>
      obtain ⟨k0, v0⟩ := p
      by_cases h0 : k0 = k
      · subst h0
        by_cases h' : k0 = k' <;> simp [dictModify, dictGet?, h']
      · by_cases h' : k0 = k'
        · subst h'
          have hkk' : ¬ k = k0 := fun h => h0 h.symm
          simp [dictModify, dictGet?, h0, hkk']
        · simp [dictModify, dictGet?, h0, h', ih]

theorem dictGet?_mem {α β : Type} [DecidableEq α] (l : List (α × β)) (k : α) (v : β)
    (h : dictGet? l k = some v) : (k, v) ∈ l := by
  induction l with
  | nil => simp [dictGet?] at h
  | cons p rest ih =>
      obtain ⟨k0, v0⟩ := p
      by_cases h0 : k0 = k
      · subst h0
        simp [dictGet?] at h
        simp [h]
      · simp [dictGet?, h0] at h
        simp [ih h]

theorem dictGet?_isSome_iff {α β : Type} [DecidableEq α] (l : List (α × β)) (k : α) :
    (dictGet? l k).isSome ↔ k ∈ l.map Prod.fst := by
  induction l with
  | nil => simp [dictGet?]
  | cons p rest ih =>
      obtain ⟨k0, v0⟩ := p
      by_cases h0 : k0 = k
      · subst h0
        simp [dictGet?]
      · have h0' : ¬ k = k0 := fun h => h0 h.symm
        simp [dictGet?, h0, h0', ih]

theorem dictSet_dictSet_same {α β : Type} [DecidableEq α]
    (l : List (α × β)) (k : α) (v w : β) :
    dictSet (dictSet l k v) k w = dictSet l k w := by
  induction l with
  | nil => simp [dictSet]
  | cons p rest ih =>
      obtain ⟨k0, v0⟩ := p
      by_cases h0 : k0 = k
      · subst h0
        simp [dictSet]
      · simp [dictSet, h0, ih]

theorem dictSet_length_eq {α β : Type} [DecidableEq α]
    (l : List (α × β)) (k : α) (v w : β) :
    (dictSet l k v).length = (dictSet l k w).length := by
  induction l with
  | nil => simp [dictSet]
  | cons p rest ih =>
      obtain ⟨k0, v0⟩ := p
      by_cases h0 : k0 = k <;> simp [dictSet, h0, ih]

/-- Python `set.update` on the list model of a string set: keep the left
operand and append the elements of the right operand not already present. -/
def unionAdd (a b : List String) : List String :=
  a ++ b.filter (fun x => !(a.contains x))

theorem mem_unionAdd (a b : List String) (x : String) :
    x ∈ unionAdd a b ↔ x ∈ a ∨ x ∈ b := by
  constructor
  · intro h
    rcases List.mem_append.mp h with h | h
    · exact Or.inl h
    · exact Or.inr (List.mem_of_mem_filter h)
  · intro h
    rcases h with h | h
    · exact List.mem_append.mpr (Or.inl h)
    · by_cases ha : x ∈ a
      · exact List.mem_append.mpr (Or.inl ha)
      · refine List.mem_append.mpr (Or.inr ?_)
        refine List.mem_filter.mpr ⟨h, ?_⟩
        simp [ha]

theorem unionAdd_of_subset (a b : List String) (h : ∀ x ∈ b, x ∈ a) :
    unionAdd a b = a := by
  have hnil : b.filter (fun x => !(a.contains x)) = [] := by
    refine List.filter_eq_nil_iff.mpr ?_
    intro x hx
    simp [h x hx]
  unfold unionAdd
  rw [hnil, List.append_nil]

theorem unionAdd_self (a : List String) : unionAdd a a = a :=
  unionAdd_of_subset a a (fun _ hx => hx)

/-- Source class `Vertex`: coordinates, unique name, alias set (a Python
set, modelled as a list), and the sequential index assigned at output time
(`None` until `assign_vertexid` runs). -/
structure Vertex where
  x : Rat
  y : Rat
  z : Rat
  name : String
  «alias» : List String
  index : Option Nat
deriving DecidableEq

/-- Source `Vertex.__init__(x, y, z, name, index=None)`: the alias set is
initialised to the singleton of the name, and `self.index` is set to
`None` unconditionally (the `index` parameter is ignored by the source). -/
def Vertex.init (x y z : Rat) (name : String) (_index : Option Nat) : Vertex :=
  { x := x, y := y, z := z, name := name, «alias» := [name], index := none }

/-- Source `Vertex.__lt__`: Python tuple comparison
`(self.z, self.y, self.x) < (rhs.z, rhs.y, rhs.z)`.  Note that the last
component of the right-hand tuple in the source is `rhs.z`, not `rhs.x`. -/
def vertexLT (a b : Vertex) : Bool :=
  decide (a.z < b.z) ||
    (decide (a.z = b.z) &&
      (decide (a.y < b.y) || (decide (a.y = b.y) && decide (a.x < b.z))))

/-- The specification's comparison: `(a.z, a.y, a.x)` lexicographically
less than or equal to `(b.z, b.y, b.x)` under standard numeric
comparison. -/
def lexZYXle (a b : Vertex) : Prop :=
  a.z < b.z ∨ (a.z = b.z ∧ (a.y < b.y ∨ (a.y = b.y ∧ a.x ≤ b.x)))

instance (a b : Vertex) : Decidable (lexZYXle a b) := by
  unfold lexZYXle
  infer_instance

/-- Source class `Face`: an ordered tuple of vertex names plus a name. -/
structure Face where
  vnames : List String
  name : String
deriving DecidableEq

/-- One axis element of `simpleGrading`: a single expansion number or a
sequence of (direction fraction, cell fraction, expansion) triples. -/
inductive SimpleGradingElement where
  | scalar (d : Rat)
  | multi (d : List (Rat × Rat × Rat))
deriving DecidableEq

/-- Source class `SimpleGrading` holding one element per axis. -/
structure SimpleGrading where
  x : SimpleGradingElement
  y : SimpleGradingElement
  z : SimpleGradingElement
deriving DecidableEq

/-- The source's default grading `SimpleGrading(1, 1, 1)`. -/
def defaultGrading : SimpleGrading :=
  { x := .scalar 1, y := .scalar 1, z := .scalar 1 }

/-- Source class `HexBlock`: 8 vertex names in the mesh tool's corner
order, per-axis cell counts, unique name and grading. -/
structure HexBlock where
  vnames : List String
  cells : Nat × Nat × Nat
  name : String
  grading : SimpleGrading
deriving DecidableEq

/-- The keyword table of `HexBlock.face`. -/
def kw_to_index : List (String × Nat) :=
  [("w", 0), ("xm", 0), ("-100", 0),
   ("e", 1), ("xp", 1), ("100", 1),
   ("s", 2), ("ym", 2), ("0-10", 2),
   ("n", 3), ("yp", 3), ("010", 3),
   ("b", 4), ("zm", 4), ("00-1", 4),
   ("t", 5), ("zp", 5), ("001", 5)]

/-- The corner-position table `index_to_vertex` of `HexBlock.face`. -/
def index_to_vertex : List (List Nat) :=
  [[0, 4, 7, 3],
   [1, 2, 6, 5],
   [0, 1, 5, 4],
   [2, 3, 7, 6],
   [0, 3, 2, 1],
   [4, 5, 6, 7]]

/-- The default-name table `index_to_defaultsuffix` of `HexBlock.face`:
each Python pattern `f-{}-w` is a (prefix, suffix) pair around the block
name. -/
def index_to_defaultsuffix : List (String × String) :=
  [("f-", "-w"),
   ("f-", "-n"),
   ("f-", "-s"),
   ("f-", "-n"),
   ("f-", "-b"),
   ("f-", "-t")]

/-- The integer-index path of `HexBlock.face`: look up the corner
positions (Python `IndexError` for an out-of-range index becomes `none`),
draw the 4 vertex names from the block's vertex tuple, and synthesize the
default name from the suffix table when no name is given. -/
def HexBlock.faceIdx (b : HexBlock) (index : Nat) (name : Option String) : Option Face :=
  match index_to_vertex.get? index with
  | none => none
  | some positions =>
      match positions.mapM (fun i => b.vnames.get? i) with
      | none => none
      | some vn =>
          match name with
          | some nm => some { vnames := vn, name := nm }
          | none =>
              match index_to_defaultsuffix.get? index with
              | none => none
              | some p => some { vnames := vn, name := p.1 ++ b.name ++ p.2 }

/-- Source `HexBlock.face(index, name=None)`: a string selector is first
translated through `kw_to_index` (Python `KeyError` for an unknown keyword
becomes `none`), then both paths share the integer logic. -/
def HexBlock.face (b : HexBlock) (index : Nat ⊕ String) (name : Option String) : Option Face :=
  match index with
  | .inl i => b.faceIdx i name
  | .inr s =>
      match dictGet? kw_to_index s with
      | none => none
      | some i => b.faceIdx i name

/-- Claim C5: for every hex block, calling `face` with any symbolic keyword
spelling that `kw_to_index` maps to face index `i` returns exactly the same
`Face` (same 4-tuple of vertex names drawn through `index_to_vertex`, and
the same default-generated name) as calling `face` with the integer `i`. -/
theorem face_keyword_matches_integer (b : HexBlock) (s : String) (i : Nat)
    (h : dictGet? kw_to_index s = some i) :
    b.face (.inr s) none = b.face (.inl i) none := by
  simp [HexBlock.face, h]

/-- Witness for C5: the keyword "w" designates face 0 and yields the same
face as the integer selector on a concrete block. -/
theorem face_keyword_matches_integer_witness :
    dictGet? kw_to_index "w" = some 0 ∧
      (HexBlock.mk ["v0", "v1", "v2", "v3", "v4", "v5", "v6", "v7"]
          (1, 1, 1) "blk" defaultGrading).face (.inr "w") none =
        (HexBlock.mk ["v0", "v1", "v2", "v3", "v4", "v5", "v6", "v7"]
          (1, 1, 1) "blk" defaultGrading).face (.inl 0) none :=
  ⟨by decide,
   face_keyword_matches_integer
     (HexBlock.mk ["v0", "v1", "v2", "v3", "v4", "v5", "v6", "v7"]
       (1, 1, 1) "blk" defaultGrading) "w" 0 (by decide)⟩

/-- Claim C6: there are two distinct face indices (1 and 3, whose table
entries are both the pattern around "-n") such that for every hex block the
default-generated face names coincide. -/
theorem default_face_name_duplicate :
    ∃ i j, i ≠ j ∧ i < 6 ∧ j < 6 ∧
      ∀ (v0 v1 v2 v3 v4 v5 v6 v7 : String) (cells : Nat × Nat × Nat)
        (nm : String) (g : SimpleGrading),
        ((HexBlock.mk [v0, v1, v2, v3, v4, v5, v6, v7] cells nm g).face
            (.inl i) none).map Face.name =
          ((HexBlock.mk [v0, v1, v2, v3, v4, v5, v6, v7] cells nm g).face
            (.inl j) none).map Face.name := by
  refine ⟨1, 3, by decide, by decide, by decide, ?_⟩
  intro v0 v1 v2 v3 v4 v5 v6 v7 cells nm g
  rfl

/-- Source class `Boundary`: type keyword, name, and a reference to a
mutable face list.  In Python the face list is a list object; `facesRef`
is its id in the document's `faceLists` heap.  The default argument
`faces=[]` of `add_boundary` is evaluated once at function definition, so
every call that omits it passes the same list object; that shared object
is the heap cell with id `addBoundaryDefaultRef`. -/
structure Boundary where
  type_ : String
  name : String
  facesRef : Nat
deriving DecidableEq

/-- The id of the single list object created for the `faces=[]` default
argument of `BlockMeshDict.add_boundary`. -/
def addBoundaryDefaultRef : Nat := 0

/-- One entry of `self.proj_faces`: the Python value
`{'face': face, 'proj_geom': proj_geometry_name}`. -/
structure ProjFace where
  face : Face
  proj_geom : String
deriving DecidableEq

/-- Source class `BlockMeshDict` (restricted to the registries the claims
are about).  `vertices` maps unique names to record ids; `store` is the
heap of `Vertex` records, so that several names can alias one record, as
in Python.  `faceLists` is the heap of mutable face-list objects used by
boundaries; cell `addBoundaryDefaultRef` models the module-level default
list of `add_boundary` (faithful for a single document, since the default
list starts empty when the process starts).  `valid_vertices` holds the
ids of the list built by `assign_vertexid`; the Python attribute does not
exist before that call, modelled here as the empty list.  `nextId` feeds
fresh heap ids. -/
structure BlockMeshDict where
  convert_to_meters : Rat
  vertices : List (String × Nat)
  store : List (Nat × Vertex)
  blocks : List (String × HexBlock)
  boundaries : List (String × Boundary)
  faceLists : List (Nat × List Face)
  proj_faces : List (String × ProjFace)
  valid_vertices : List Nat
  nextId : Nat
deriving DecidableEq

/-- Source `BlockMeshDict.__init__`: scale 1.0 and empty registries. -/
def BlockMeshDict.init : BlockMeshDict :=
  { convert_to_meters := 1
    vertices := []
    store := []
    blocks := []
    boundaries := []
    faceLists := [(addBoundaryDefaultRef, [])]
    proj_faces := []
    valid_vertices := []
    nextId := 1 }

/-- The metric table of `BlockMeshDict.set_metric`. -/
def metricsym_to_conversion : List (String × Rat) :=
  [("km", 1000),
   ("m", 1),
   ("cm", 1 / 100),
   ("mm", 1 / 1000),
   ("um", 1 / 1000000),
   ("nm", 1 / 1000000000),
   ("A", 1 / 10000000000),
   ("Angstrom", 1 / 10000000000)]

/-- Source `BlockMeshDict.set_metric`: look the symbol up in the fixed
table (Python `KeyError` for an unknown symbol becomes `none`) and store
the conversion factor. -/
def BlockMeshDict.set_metric (s : BlockMeshDict) (metric : String) : Option BlockMeshDict :=
  match dictGet? metricsym_to_conversion metric with
  | none => none
  | some c => some { s with convert_to_meters := c }

/-- Source `BlockMeshDict.add_vertex(vertex, name)`: if the name is
already registered, print a warning and keep the existing record,
otherwise bind the name to a fresh record holding the given vertex;
either way return `self.vertices[name]`.  The result is the new state,
the id of the returned record, and whether the duplicate warning was
printed. -/
def BlockMeshDict.add_vertex (s : BlockMeshDict) (vertex : Vertex) (name : String) :
    BlockMeshDict × Nat × Bool :=
  match dictGet? s.vertices name with
  | some rid => (s, rid, true)
  | none =>
      let rid := s.nextId
      ({ s with
          vertices := dictSet s.vertices name rid
          store := dictSet s.store rid vertex
          nextId := s.nextId + 1 },
       rid, false)

/-- One iteration of the loop of `reduce_vertex`: look up the name, merge
its record's alias set into the primary record (in place, on the heap)
and rebind the name to the primary record. -/
def reduceStep (rid : Nat) (n : String) (s : BlockMeshDict) : Option BlockMeshDict :=
  (dictGet? s.vertices n).bind fun wid =>
    (dictGet? s.store rid).bind fun v =>
      (dictGet? s.store wid).bind fun w =>
        some { s with
                store := dictSet s.store rid
                  { v with «alias» := unionAdd v.«alias» w.«alias» }
                vertices := dictSet s.vertices n rid }

/-- The loop of `reduce_vertex` over the trailing names. -/
def reduceGo (rid : Nat) : List String → BlockMeshDict → Option BlockMeshDict
  | [], s => some s
  | n :: rest, s =>
      match reduceStep rid n s with
      | none => none
      | some s1 => reduceGo rid rest s1

/-- Source `BlockMeshDict.reduce_vertex(name1, *names)`: treat all the
names as the same point; a missing name raises `KeyError` (`none`). -/
def BlockMeshDict.reduce_vertex (s : BlockMeshDict) (name1 : String) (names : List String) :
    Option BlockMeshDict :=
  match dictGet? s.vertices name1 with
  | none => none
  | some rid => reduceGo rid names s

/-- Source `BlockMeshDict.add_hexblock`. -/
def BlockMeshDict.add_hexblock (s : BlockMeshDict) (vnames : List String)
    (cells : Nat × Nat × Nat) (name : String) (grading : SimpleGrading) :
    BlockMeshDict × HexBlock :=
  let b : HexBlock := { vnames := vnames, cells := cells, name := name, grading := grading }
  ({ s with blocks := dictSet s.blocks name b }, b)

/-- Source `BlockMeshDict.add_boundary(type_, name, faces=[])`: when the
caller omits `faces`, the boundary receives the module-level default list
object (`addBoundaryDefaultRef`); when a list is passed, a fresh list
object is allocated for it. -/
def BlockMeshDict.add_boundary (s : BlockMeshDict) (type_ name : String)
    (faces : Option (List Face)) : BlockMeshDict × Boundary :=
  match faces with
  | none =>
      let b : Boundary := { type_ := type_, name := name, facesRef := addBoundaryDefaultRef }
      ({ s with boundaries := dictSet s.boundaries name b }, b)
  | some fs =>
      let ref := s.nextId
      let b : Boundary := { type_ := type_, name := name, facesRef := ref }
      ({ s with
          faceLists := dictSet s.faceLists ref fs
          boundaries := dictSet s.boundaries name b
          nextId := s.nextId + 1 }, b)

/-- Source `Boundary.add_face`: append a face to the boundary's list
object (an in-place mutation of the shared heap cell). -/
def Boundary.add_face (b : Boundary) (s : BlockMeshDict) (f : Face) : BlockMeshDict :=
  { s with faceLists := dictModify s.faceLists b.facesRef (fun fs => fs ++ [f]) }

/-- The face list a boundary currently sees (dereference of its list
object). -/
def Boundary.faces (b : Boundary) (s : BlockMeshDict) : Option (List Face) :=
  dictGet? s.faceLists b.facesRef

/-- Source `BlockMeshDict.add_proj_face(name, face, proj_geometry_name)`:
the entry is stored under the key `face.name`; the `name` parameter is
never read. -/
def BlockMeshDict.add_proj_face (s : BlockMeshDict) (name : String) (face : Face)
    (proj_geometry_name : String) : BlockMeshDict × Face :=
  ({ s with
      proj_faces := dictSet s.proj_faces face.name
        { face := face, proj_geom := proj_geometry_name } },
   face)

/-- Claim C8: re-adding a name already present in the vertex registry is
not fatal: the state is unchanged (the pre-existing record stays bound,
the new vertex is discarded), the duplicate warning is emitted, and the
pre-existing record is returned. -/
theorem add_vertex_duplicate_keeps_existing (s : BlockMeshDict) (v : Vertex)
    (name : String) (rid : Nat) (h : dictGet? s.vertices name = some rid) :
    s.add_vertex v name = (s, rid, true) := by
  simp [BlockMeshDict.add_vertex, h]

/-- Witness for C8 on a concrete registry with the name already bound. -/
theorem add_vertex_duplicate_keeps_existing_witness :
    dictGet? (((BlockMeshDict.init.add_vertex
        (Vertex.init 0 0 0 "a" none) "a").1).vertices) "a" = some 1 ∧
      ((BlockMeshDict.init.add_vertex (Vertex.init 0 0 0 "a" none) "a").1).add_vertex
          (Vertex.init 5 5 5 "a" none) "a" =
        ((BlockMeshDict.init.add_vertex (Vertex.init 0 0 0 "a" none) "a").1, 1, true) :=
  ⟨by decide,
   add_vertex_duplicate_keeps_existing
     ((BlockMeshDict.init.add_vertex (Vertex.init 0 0 0 "a" none) "a").1)
     (Vertex.init 5 5 5 "a" none) "a" 1 (by decide)⟩

/-- Claim C9: `set_metric "mm"` sets the scale factor to 0.001; every
recognized symbol maps to its fixed multiplier; an unknown symbol such as
"ly" fails with a lookup error; and the recognized symbols are exactly
km, m, cm, mm, um, nm, A, Angstrom. -/
theorem set_metric_table (s : BlockMeshDict) :
    ((s.set_metric "mm").map BlockMeshDict.convert_to_meters = some (1 / 1000)
      ∧ (s.set_metric "km").map BlockMeshDict.convert_to_meters = some 1000
      ∧ (s.set_metric "m").map BlockMeshDict.convert_to_meters = some 1
      ∧ (s.set_metric "cm").map BlockMeshDict.convert_to_meters = some (1 / 100)
      ∧ (s.set_metric "um").map BlockMeshDict.convert_to_meters = some (1 / 1000000)
      ∧ (s.set_metric "nm").map BlockMeshDict.convert_to_meters = some (1 / 1000000000)
      ∧ (s.set_metric "A").map BlockMeshDict.convert_to_meters = some (1 / 10000000000)
      ∧ (s.set_metric "Angstrom").map BlockMeshDict.convert_to_meters
          = some (1 / 10000000000))
    ∧ s.set_metric "ly" = none
    ∧ ∀ m : String, (s.set_metric m).isSome ↔
        m ∈ ["km", "m", "cm", "mm", "um", "nm", "A", "Angstrom"] := by
  refine ⟨⟨rfl, rfl, rfl, rfl, rfl, rfl, rfl, rfl⟩, rfl, ?_⟩
  intro m
  have h1 : ∀ c : Rat, ((some c).map
      (fun c => { s with convert_to_meters := c } : Rat → BlockMeshDict)).isSome := by
    intro c
    rfl
  unfold BlockMeshDict.set_metric
  have hkeys : metricsym_to_conversion.map Prod.fst =
      ["km", "m", "cm", "mm", "um", "nm", "A", "Angstrom"] := rfl
  rw [← hkeys, ← dictGet?_isSome_iff]
  cases hg : dictGet? metricsym_to_conversion m <;> simp

/-- Claim C10: `add_proj_face` stores the entry under the key `face.name`
and ignores its `name` parameter, so a second call whose face carries the
same `face.name` silently replaces the first entry (same key, no growth of
the registry) whatever the `name` arguments were. -/
theorem add_proj_face_keyed_by_face_name (s : BlockMeshDict) (n1 n2 : String)
    (f g : Face) (geo1 geo2 : String) (hname : g.name = f.name) :
    (s.add_proj_face n1 f geo1 = s.add_proj_face n2 f geo1)
    ∧ dictGet? (((s.add_proj_face n1 f geo1).1.add_proj_face n2 g geo2).1).proj_faces
        f.name = some { face := g, proj_geom := geo2 }
    ∧ (((s.add_proj_face n1 f geo1).1.add_proj_face n2 g geo2).1).proj_faces.length
        = ((s.add_proj_face n1 f geo1).1).proj_faces.length := by
  refine ⟨rfl, ?_, ?_⟩
  · simp [BlockMeshDict.add_proj_face, hname, dictGet?_dictSet]
  · simp only [BlockMeshDict.add_proj_face, hname]
    rw [dictSet_dictSet_same]
    exact dictSet_length_eq s.proj_faces f.name _ _

/-- Witness for C10 with two concrete faces sharing a face name. -/
theorem add_proj_face_keyed_by_face_name_witness :
    (Face.mk ["a", "b", "c", "d"] "shared").name = (Face.mk ["p", "q", "r", "t"] "shared").name
    ∧ ((BlockMeshDict.init.add_proj_face "first" (Face.mk ["p", "q", "r", "t"] "shared") "geo1"
          = BlockMeshDict.init.add_proj_face "second" (Face.mk ["p", "q", "r", "t"] "shared") "geo1")
        ∧ dictGet? (((BlockMeshDict.init.add_proj_face "first"
              (Face.mk ["p", "q", "r", "t"] "shared") "geo1").1.add_proj_face "second"
              (Face.mk ["a", "b", "c", "d"] "shared") "geo2").1).proj_faces
            (Face.mk ["p", "q", "r", "t"] "shared").name
            = some { face := Face.mk ["a", "b", "c", "d"] "shared", proj_geom := "geo2" }
        ∧ (((BlockMeshDict.init.add_proj_face "first"
              (Face.mk ["p", "q", "r", "t"] "shared") "geo1").1.add_proj_face "second"
              (Face.mk ["a", "b", "c", "d"] "shared") "geo2").1).proj_faces.length
            = ((BlockMeshDict.init.add_proj_face "first"
              (Face.mk ["p", "q", "r", "t"] "shared") "geo1").1).proj_faces.length) :=
  ⟨rfl,
   add_proj_face_keyed_by_face_name BlockMeshDict.init "first" "second"
     (Face.mk ["p", "q", "r", "t"] "shared") (Face.mk ["a", "b", "c", "d"] "shared")
     "geo1" "geo2" rfl⟩


theorem reduceStep_spec (rid : Nat) (n : String) (s s1 : BlockMeshDict) (v : Vertex)
    (hv : dictGet? s.store rid = some v) (h : reduceStep rid n s = some s1) :
    ∃ wid w, dictGet? s.vertices n = some wid
      ∧ dictGet? s.store wid = some w
      ∧ s1 = { s with
                store := dictSet s.store rid
                  { v with «alias» := unionAdd v.«alias» w.«alias» }
                vertices := dictSet s.vertices n rid } := by
  unfold reduceStep at h
  cases hn : dictGet? s.vertices n with
  | none => rw [hn, Option.none_bind] at h; cases h
  | some wid =>
      rw [hn, Option.some_bind, hv, Option.some_bind] at h
      cases hw : dictGet? s.store wid with
      | none => rw [hw, Option.none_bind] at h; cases h
      | some w =>
          rw [hw, Option.some_bind] at h
          exact ⟨wid, w, rfl, hw, (Option.some.inj h).symm⟩

/-- Full functional specification of the loop of `reduce_vertex`, relative
to the state at loop entry: all processed names end up bound to the
primary record; other bindings and other records are untouched; the
primary record keeps its coordinates, name and index, and its alias set
absorbs the alias set of every record that a processed name denoted at
entry. -/
theorem reduceGo_spec (rid : Nat) (names : List String) :
    ∀ (s s' : BlockMeshDict) (v : Vertex),
      reduceGo rid names s = some s' →
      dictGet? s.store rid = some v →
      ((∀ n ∈ names, dictGet? s'.vertices n = some rid)
       ∧ (∀ n, n ∉ names → dictGet? s'.vertices n = dictGet? s.vertices n)
       ∧ (∀ r, r ≠ rid → dictGet? s'.store r = dictGet? s.store r)
       ∧ ∃ v', dictGet? s'.store rid = some v'
            ∧ v'.x = v.x ∧ v'.y = v.y ∧ v'.z = v.z
            ∧ v'.name = v.name ∧ v'.index = v.index
            ∧ (∀ a ∈ v.«alias», a ∈ v'.«alias»)
            ∧ (∀ n ∈ names, ∀ wid w, dictGet? s.vertices n = some wid →
                 dictGet? s.store wid = some w → ∀ a ∈ w.«alias», a ∈ v'.«alias»)) := by
  induction names with
  | nil =>
      intro s s' v h hv
      cases h
      exact ⟨by simp, fun n _ => rfl, fun r _ => rfl,
        v, hv, rfl, rfl, rfl, rfl, rfl, fun a ha => ha, by simp⟩
  | cons n rest ih =>
      intro s s' v h hv
      unfold reduceGo at h
      cases hstep : reduceStep rid n s with
      | none => rw [hstep] at h; cases h
      | some s1 =>
          rw [hstep] at h
          obtain ⟨wid, w, hn, hw, hs1⟩ := reduceStep_spec rid n s s1 v hv hstep
          have hs1store : dictGet? s1.store rid =
              some { v with «alias» := unionAdd v.«alias» w.«alias» } := by
            rw [hs1]
            show dictGet? (dictSet s.store rid _) rid = _
            rw [dictGet?_dictSet]
            simp
          obtain ⟨hbound, hunbound, hother, v', hv', hx, hy, hz, hnm, hidx, hkeep, hmerge⟩ :=
            ih s1 s' { v with «alias» := unionAdd v.«alias» w.«alias» } h hs1store
          have hs1vert : ∀ m, dictGet? s1.vertices m =
              if n = m then some rid else dictGet? s.vertices m := by
            intro m
            rw [hs1]
            show dictGet? (dictSet s.vertices n rid) m = _
            rw [dictGet?_dictSet]
          have hs1other : ∀ r, r ≠ rid → dictGet? s1.store r = dictGet? s.store r := by
            intro r hr
            rw [hs1]
            show dictGet? (dictSet s.store rid _) r = _
            rw [dictGet?_dictSet, if_neg (Ne.symm hr)]
          refine ⟨?_, ?_, ?_, v', hv', hx, hy, hz, hnm, hidx, ?_, ?_⟩
          · intro m hm
            rcases List.mem_cons.mp hm with hm | hm
            · subst hm
              by_cases hmr : m ∈ rest
              · exact hbound m hmr
              · rw [hunbound m hmr, hs1vert m]
                simp
            · exact hbound m hm
          · intro m hm
            have hm1 : m ∉ rest := fun hc => hm (List.mem_cons.mpr (Or.inr hc))
            have hmn : ¬ n = m := fun hc => hm (List.mem_cons.mpr (Or.inl hc.symm))
            rw [hunbound m hm1, hs1vert m]
            simp [hmn]
          · intro r hr
            rw [hother r hr, hs1other r hr]
          · intro a ha
            exact hkeep a ((mem_unionAdd _ _ a).mpr (Or.inl ha))
          · intro m hm wid2 w2 hm2 hw2 a ha
            rcases List.mem_cons.mp hm with hm | hm
            · -- the head name: its record at entry is w, merged in this step
              subst hm
              rw [hn] at hm2
              have hwid : wid2 = wid := (Option.some.inj hm2).symm
              rw [hwid, hw] at hw2
              have hww : w2 = w := (Option.some.inj hw2).symm
              rw [hww] at ha
              exact hkeep a ((mem_unionAdd _ _ a).mpr (Or.inr ha))
            · by_cases hmn : n = m
              · -- same name as the head: same record as the head's lookup
                rw [← hmn, hn] at hm2
                have hwid : wid2 = wid := (Option.some.inj hm2).symm
                rw [hwid, hw] at hw2
                have hww : w2 = w := (Option.some.inj hw2).symm
                rw [hww] at ha
                exact hkeep a ((mem_unionAdd _ _ a).mpr (Or.inr ha))
              · by_cases hwr : wid2 = rid
                · -- the name denoted the primary record at entry
                  rw [hwr, hv] at hw2
                  have hwv : w2 = v := (Option.some.inj hw2).symm
                  rw [hwv] at ha
                  exact hkeep a ((mem_unionAdd _ _ a).mpr (Or.inl ha))
                · -- an unrelated record, handled by the induction hypothesis
                  refine hmerge m hm wid2 w2 ?_ ?_ a ha
                  · rw [hs1vert m]
                    simp [hmn, hm2]
                  · rw [hs1other wid2 hwr]
                    exact hw2

theorem reduceStep_store_isSome (rid : Nat) (n : String) (s s1 : BlockMeshDict)
    (h : reduceStep rid n s = some s1) : ∃ v, dictGet? s.store rid = some v := by
  unfold reduceStep at h
  cases hn : dictGet? s.vertices n with
  | none => rw [hn, Option.none_bind] at h; cases h
  | some wid =>
      rw [hn, Option.some_bind] at h
      cases hv : dictGet? s.store rid with
      | none => rw [hv, Option.none_bind] at h; cases h
      | some v => exact ⟨v, rfl⟩

theorem reduceGo_cons_store_isSome (rid : Nat) (n : String) (rest : List String)
    (s s' : BlockMeshDict) (h : reduceGo rid (n :: rest) s = some s') :
    ∃ v, dictGet? s.store rid = some v := by
  unfold reduceGo at h
  cases hstep : reduceStep rid n s with
  | none => rw [hstep] at h; cases h
  | some s1 => exact reduceStep_store_isSome rid n s s1 hstep

/-- Claim C3: after a successful `reduce_vertex(name1, n2, ...)`, the
primary name and every merged name look up to the same single vertex
record; that record's alias set contains the union of all the merged
records' alias sets (including the primary's own), and its coordinates
are those that `name1`'s record had before the call. -/
theorem reduce_vertex_merges (s s' : BlockMeshDict) (name1 n2 : String) (rest : List String)
    (h : s.reduce_vertex name1 (n2 :: rest) = some s') :
    ∃ rid v v',
      dictGet? s.vertices name1 = some rid
      ∧ dictGet? s.store rid = some v
      ∧ dictGet? s'.vertices name1 = some rid
      ∧ (∀ n ∈ n2 :: rest, dictGet? s'.vertices n = some rid)
      ∧ dictGet? s'.store rid = some v'
      ∧ v'.x = v.x ∧ v'.y = v.y ∧ v'.z = v.z
      ∧ (∀ a ∈ v.«alias», a ∈ v'.«alias»)
      ∧ (∀ n ∈ n2 :: rest, ∀ wid w, dictGet? s.vertices n = some wid →
           dictGet? s.store wid = some w → ∀ a ∈ w.«alias», a ∈ v'.«alias») := by
  unfold BlockMeshDict.reduce_vertex at h
  cases hr : dictGet? s.vertices name1 with
  | none => rw [hr] at h; cases h
  | some rid =>
      rw [hr] at h
      obtain ⟨v, hv⟩ := reduceGo_cons_store_isSome rid n2 rest s s' h
      obtain ⟨hbound, hunbound, hother, v', hv', hx, hy, hz, hnm, hidx, hkeep, hmerge⟩ :=
        reduceGo_spec rid (n2 :: rest) s s' v h hv
      refine ⟨rid, v, v', rfl, hv, ?_, hbound, hv', hx, hy, hz, hkeep, hmerge⟩
      by_cases hmem : name1 ∈ n2 :: rest
      · exact hbound name1 hmem
      · rw [hunbound name1 hmem, hr]

/-- A concrete reduced document: two vertices registered under "v0" and
"v0b" and then merged. -/
def stateC3 : BlockMeshDict :=
  ((BlockMeshDict.init.add_vertex (Vertex.init 0 0 0 "v0" none) "v0").1.add_vertex
    (Vertex.init 1 2 3 "v0b" none) "v0b").1

/-- The result of reducing "v0b" into "v0" on `stateC3`. -/
def stateC3r : BlockMeshDict :=
  (stateC3.reduce_vertex "v0" ["v0b"]).getD BlockMeshDict.init

/-- Witness for C3 on the concrete merged document. -/
theorem reduce_vertex_merges_witness :
    stateC3.reduce_vertex "v0" ["v0b"] = some stateC3r ∧
      ∃ rid v v',
        dictGet? stateC3.vertices "v0" = some rid
        ∧ dictGet? stateC3.store rid = some v
        ∧ dictGet? stateC3r.vertices "v0" = some rid
        ∧ (∀ n ∈ ["v0b"], dictGet? stateC3r.vertices n = some rid)
        ∧ dictGet? stateC3r.store rid = some v'
        ∧ v'.x = v.x ∧ v'.y = v.y ∧ v'.z = v.z
        ∧ (∀ a ∈ v.«alias», a ∈ v'.«alias»)
        ∧ (∀ n ∈ ["v0b"], ∀ wid w, dictGet? stateC3.vertices n = some wid →
             dictGet? stateC3.store wid = some w → ∀ a ∈ w.«alias», a ∈ v'.«alias») :=
  ⟨by decide, reduce_vertex_merges stateC3 stateC3r "v0" "v0b" [] (by decide)⟩

theorem reduceGo_identity (rid : Nat) (names : List String) :
    ∀ (s : BlockMeshDict) (v : Vertex),
      dictGet? s.store rid = some v →
      (∀ n ∈ names, dictGet? s.vertices n = some rid) →
      reduceGo rid names s = some s := by
  induction names with
  | nil => intro s v hv hb; rfl
  | cons n rest ih =>
      intro s v hv hb
      have hn : dictGet? s.vertices n = some rid := hb n (List.mem_cons_self n rest)
      have hstep : reduceStep rid n s = some s := by
        unfold reduceStep
        rw [hn]
        simp only [Option.some_bind]
        rw [hv]
        simp only [Option.some_bind]
        rw [unionAdd_self]
        have hveta : ({ v with «alias» := v.«alias» } : Vertex) = v := rfl
        rw [hveta, dictSet_self s.store rid v hv, dictSet_self s.vertices n rid hn]
      unfold reduceGo
      rw [hstep]
      exact ih s v hv (fun m hm => hb m (List.mem_cons_of_mem n hm))

/-- Claim C4: `reduce_vertex` is idempotent: a second call with the same
arguments on the state produced by a successful first call succeeds and
leaves the document (registry bindings and every record's alias set)
unchanged. -/
theorem reduce_vertex_idempotent (s s' : BlockMeshDict) (name1 n2 : String)
    (rest : List String) (h : s.reduce_vertex name1 (n2 :: rest) = some s') :
    s'.reduce_vertex name1 (n2 :: rest) = some s' := by
  unfold BlockMeshDict.reduce_vertex at h ⊢
  cases hr : dictGet? s.vertices name1 with
  | none => rw [hr] at h; cases h
  | some rid =>
      rw [hr] at h
      obtain ⟨v, hv⟩ := reduceGo_cons_store_isSome rid n2 rest s s' h
      obtain ⟨hbound, hunbound, hother, v', hv', hx, hy, hz, hnm, hidx, hkeep, hmerge⟩ :=
        reduceGo_spec rid (n2 :: rest) s s' v h hv
      have hname1 : dictGet? s'.vertices name1 = some rid := by
        by_cases hmem : name1 ∈ n2 :: rest
        · exact hbound name1 hmem
        · rw [hunbound name1 hmem, hr]
      rw [hname1]
      exact reduceGo_identity rid (n2 :: rest) s' v' hv' hbound

/-- Witness for C4: the second reduction on the concrete merged document
returns it unchanged. -/
theorem reduce_vertex_idempotent_witness :
    stateC3.reduce_vertex "v0" ["v0b"] = some stateC3r ∧
      stateC3r.reduce_vertex "v0" ["v0b"] = some stateC3r :=
  ⟨by decide, reduce_vertex_idempotent stateC3 stateC3r "v0" "v0b" [] (by decide)⟩

/-- Stable insertion used to model Python `sorted` driven by
`Vertex.__lt__`: an element is placed before the first element of the
already-sorted tail that is not strictly less than it.  For inputs on
which the comparison is a strict weak order — and elementwise for every
candidate list of length at most two regardless — this coincides with
CPython's stable sort; the general theorems below rely only on the result
being a permutation of the input, which holds for any comparison-based
sort. -/
def pyInsert (x : Nat × Vertex) : List (Nat × Vertex) → List (Nat × Vertex)
  | [] => [x]
  | y :: ys => if vertexLT y.2 x.2 then y :: pyInsert x ys else x :: y :: ys

/-- Model of `sorted(valid_vertices)` in `assign_vertexid`. -/
def pySorted : List (Nat × Vertex) → List (Nat × Vertex)
  | [] => []
  | x :: xs => pyInsert x (pySorted xs)

theorem pyInsert_perm (x : Nat × Vertex) (l : List (Nat × Vertex)) :
    List.Perm (pyInsert x l) (x :: l) := by
  induction l with
  | nil => exact List.Perm.refl _
  | cons y ys ih =>
      by_cases hlt : vertexLT y.2 x.2 = true
      · have h1 : pyInsert x (y :: ys) = y :: pyInsert x ys := by simp [pyInsert, hlt]
        rw [h1]
        exact (List.Perm.cons y ih).trans (List.Perm.swap x y ys)
      · have h1 : pyInsert x (y :: ys) = x :: y :: ys := by simp [pyInsert, hlt]
        rw [h1]

theorem pySorted_perm (l : List (Nat × Vertex)) : List.Perm (pySorted l) l := by
  induction l with
  | nil => exact List.Perm.refl _
  | cons x xs ih =>
      have h1 : pySorted (x :: xs) = pyInsert x (pySorted xs) := rfl
      rw [h1]
      exact (pyInsert_perm x (pySorted xs)).trans (List.Perm.cons x ih)

/-- The vertex-name references of all blocks, in block-registry iteration
order then in-block corner order (the scan order of `assign_vertexid`). -/
def blockVnames (s : BlockMeshDict) : List String :=
  (s.blocks.map (fun p => p.2.vnames)).flatten

/-- A record id is referenced by a block when some block vertex name
resolves to it. -/
def blockReferenced (s : BlockMeshDict) (rid : Nat) : Prop :=
  ∃ n ∈ blockVnames s, dictGet? s.vertices n = some rid

/-- The gathering loop of `assign_vertexid`: scan the block vertex names,
resolve each through the registry, and keep the first record for each
record name (`validvnames` is the `seen` set).  Pairs carry the record id
together with the record value at scan time. -/
def gatherLoop (s : BlockMeshDict) :
    List String → List String → List (Nat × Vertex) → Option (List (Nat × Vertex))
  | [], _, acc => some acc
  | n :: rest, seen, acc =>
      (dictGet? s.vertices n).bind fun rid =>
        (dictGet? s.store rid).bind fun v =>
          if v.name ∈ seen then gatherLoop s rest seen acc
          else gatherLoop s rest (seen ++ [v.name]) (acc ++ [(rid, v)])

/-- The enumeration loop of `assign_vertexid`: write the running position
into the `index` attribute of each listed record, in order. -/
def assignIndices : List (Nat × Vertex) → Nat → List (Nat × Vertex) → List (Nat × Vertex)
  | store, _, [] => store
  | store, i, p :: rest =>
      assignIndices (dictModify store p.1 (fun v => { v with index := some i })) (i + 1) rest

/-- Source `BlockMeshDict.assign_vertexid`: gather the records referenced
by blocks (deduplicated by record name), sort them with `Vertex.__lt__`,
save the sorted list as `valid_vertices` and write sequential indices
into the records. -/
def BlockMeshDict.assign_vertexid (s : BlockMeshDict) : Option BlockMeshDict :=
  match gatherLoop s (blockVnames s) [] [] with
  | none => none
  | some valid =>
      let sortedv := pySorted valid
      some { s with
              valid_vertices := sortedv.map Prod.fst
              store := assignIndices s.store 0 sortedv }

/-- Source `BlockMeshDict.format_vertices_section` writes one line per
element of `self.valid_vertices`, in list order; this is the sequence of
records it renders (the claims about the vertices section concern which
records appear, not the numeric text formatting). -/
def format_vertices_entries (s : BlockMeshDict) : List (Option Vertex) :=
  s.valid_vertices.map (fun rid => dictGet? s.store rid)

/-- Well-formedness used by the index-assignment claims: distinct records
in the heap carry distinct `name` attributes (the source documents the
vertex name as "uniq name"; `assign_vertexid` deduplicates records by
this attribute). -/
def NamesInj (store : List (Nat × Vertex)) : Prop :=
  ∀ rid1 rid2 v1 v2, dictGet? store rid1 = some v1 → dictGet? store rid2 = some v2 →
    v1.name = v2.name → rid1 = rid2

theorem NamesInj_of_nodup_names (store : List (Nat × Vertex))
    (h : (store.map (fun p => p.2.name)).Nodup) : NamesInj store := by
  intro rid1 rid2 v1 v2 h1 h2 hn
  have m1 := dictGet?_mem store rid1 v1 h1
  have m2 := dictGet?_mem store rid2 v2 h2
  have := List.inj_on_of_nodup_map h m1 m2 hn
  exact congrArg Prod.fst this

/-- Dereference a registry name to the record it currently denotes. -/
def getVertex (s : BlockMeshDict) (n : String) : Option Vertex :=
  (dictGet? s.vertices n).bind (dictGet? s.store)

/-- A document with two vertices sharing z and y coordinates, registered
with decreasing x (x = 5 then x = 3), both referenced by one block. -/
def stateC1 : BlockMeshDict :=
  (((BlockMeshDict.init.add_vertex (Vertex.init 5 0 0 "a" none) "a").1.add_vertex
      (Vertex.init 3 0 0 "b" none) "b").1.add_hexblock
    ["a", "a", "a", "a", "b", "b", "b", "b"] (1, 1, 1) "blk" defaultGrading).1

/-- The result of `assign_vertexid` on `stateC1`. -/
def stateC1r : BlockMeshDict :=
  (stateC1.assign_vertexid).getD BlockMeshDict.init

/-- The record named "a" after assignment. -/
def vaC1 : Vertex := (getVertex stateC1r "a").getD (Vertex.init 0 0 0 "" none)

/-- The record named "b" after assignment. -/
def vbC1 : Vertex := (getVertex stateC1r "b").getD (Vertex.init 0 0 0 "" none)

/-- Claim C1 fails on the code: because `Vertex.__lt__` compares
`(self.z, self.y, self.x)` against `(rhs.z, rhs.y, rhs.z)` (the source
repeats `rhs.z` where `rhs.x` is evidently intended), two vertices with
equal z and y are never reordered by x.  On `stateC1` the assignment runs,
both records end up in `valid_vertices` with indices 0 and 1, yet the
index-0 record's (z, y, x) triple is lexicographically greater than the
index-1 record's, contradicting the claimed sort postcondition. -/
theorem assign_vertexid_sort_bug :
    stateC1.assign_vertexid = some stateC1r
    ∧ stateC1r.valid_vertices = [1, 2]
    ∧ dictGet? stateC1r.vertices "a" = some 1
    ∧ dictGet? stateC1r.vertices "b" = some 2
    ∧ getVertex stateC1r "a" = some vaC1
    ∧ getVertex stateC1r "b" = some vbC1
    ∧ vaC1.index = some 0
    ∧ vbC1.index = some 1
    ∧ ¬ lexZYXle vaC1 vbC1 := by
  decide

/-- Invariant-carrying specification of the gathering loop: on success the
output pairs are consistent with the heap, the collected ids are distinct
(given name-injectivity of the heap), and an id is collected exactly when
it was already collected or some scanned name resolves to it. -/
theorem gatherLoop_spec (s : BlockMeshDict) (hinj : NamesInj s.store) (ns : List String) :
    ∀ (seen : List String) (acc out : List (Nat × Vertex)),
      gatherLoop s ns seen acc = some out →
      (∀ p ∈ acc, dictGet? s.store p.1 = some p.2) →
      (∀ p ∈ acc, p.2.name ∈ seen) →
      (∀ nm ∈ seen, ∃ p ∈ acc, p.2.name = nm) →
      (acc.map Prod.fst).Nodup →
      ((∀ p ∈ out, dictGet? s.store p.1 = some p.2)
       ∧ (out.map Prod.fst).Nodup
       ∧ (∀ rid, rid ∈ out.map Prod.fst ↔
            rid ∈ acc.map Prod.fst ∨ ∃ n ∈ ns, dictGet? s.vertices n = some rid)) := by
  induction ns with
  | nil =>
      intro seen acc out h hP1 hP2 hP3 hP4
      cases h
      exact ⟨hP1, hP4, fun rid => by simp⟩
  | cons n rest ih =>
      intro seen acc out h hP1 hP2 hP3 hP4
      unfold gatherLoop at h
      cases hn : dictGet? s.vertices n with
      | none => rw [hn, Option.none_bind] at h; cases h
      | some rid0 =>
          rw [hn, Option.some_bind] at h
          cases hv : dictGet? s.store rid0 with
          | none => rw [hv, Option.none_bind] at h; cases h
          | some v0 =>
              rw [hv, Option.some_bind] at h
              by_cases hseen : v0.name ∈ seen
              · rw [if_pos hseen] at h
                obtain ⟨q1, q2, q3⟩ := ih seen acc out h hP1 hP2 hP3 hP4
                have hrid0 : rid0 ∈ acc.map Prod.fst := by
                  obtain ⟨p, hp, hpname⟩ := hP3 v0.name hseen
                  have hps := hP1 p hp
                  have hpe : p.1 = rid0 := hinj p.1 rid0 p.2 v0 hps hv hpname
                  exact hpe ▸ List.mem_map_of_mem Prod.fst hp
                refine ⟨q1, q2, fun rid => ?_⟩
                rw [q3 rid]
                constructor
                · rintro (hl | ⟨m, hm, hres⟩)
                  · exact Or.inl hl
                  · exact Or.inr ⟨m, List.mem_cons_of_mem n hm, hres⟩
                · rintro (hl | ⟨m, hm, hres⟩)
                  · exact Or.inl hl
                  · rcases List.mem_cons.mp hm with hm | hm
                    · subst hm
                      rw [hn] at hres
                      have he : rid0 = rid := Option.some.inj hres
                      exact Or.inl (he ▸ hrid0)
                    · exact Or.inr ⟨m, hm, hres⟩
              · rw [if_neg hseen] at h
                have hfresh : rid0 ∉ acc.map Prod.fst := by
                  intro hc
                  obtain ⟨p, hp, hp1⟩ := List.mem_map.mp hc
                  have hps := hP1 p hp
                  rw [hp1] at hps
                  have hpe : p.2 = v0 := Option.some.inj (hps.symm.trans hv)
                  exact hseen (hpe ▸ hP2 p hp)
                have hP1' : ∀ p ∈ acc ++ [(rid0, v0)], dictGet? s.store p.1 = some p.2 := by
                  intro p hp
                  rcases List.mem_append.mp hp with hp | hp
                  · exact hP1 p hp
                  · have hpe : p = (rid0, v0) := by simpa using hp
                    rw [hpe]
                    exact hv
                have hP2' : ∀ p ∈ acc ++ [(rid0, v0)], p.2.name ∈ seen ++ [v0.name] := by
                  intro p hp
                  rcases List.mem_append.mp hp with hp | hp
                  · exact List.mem_append.mpr (Or.inl (hP2 p hp))
                  · have hpe : p = (rid0, v0) := by simpa using hp
                    rw [hpe]
                    simp
                have hP3' : ∀ nm ∈ seen ++ [v0.name], ∃ p ∈ acc ++ [(rid0, v0)], p.2.name = nm := by
                  intro nm hnm
                  rcases List.mem_append.mp hnm with hnm | hnm
                  · obtain ⟨p, hp, hpname⟩ := hP3 nm hnm
                    exact ⟨p, List.mem_append.mpr (Or.inl hp), hpname⟩
                  · have hne : nm = v0.name := by simpa using hnm
                    exact ⟨(rid0, v0), List.mem_append.mpr (Or.inr (by simp)), hne.symm⟩
                have hP4' : ((acc ++ [(rid0, v0)]).map Prod.fst).Nodup := by
                  rw [List.map_append]
                  rw [List.nodup_append]
                  refine ⟨hP4, by simp, ?_⟩
                  intro a ha hb
                  have hae : a = rid0 := by simpa using hb
                  exact hfresh (hae ▸ ha)
                obtain ⟨q1, q2, q3⟩ :=
                  ih (seen ++ [v0.name]) (acc ++ [(rid0, v0)]) out h hP1' hP2' hP3' hP4'
                refine ⟨q1, q2, fun rid => ?_⟩
                rw [q3 rid, List.map_append]
                constructor
                · rintro (hl | ⟨m, hm, hres⟩)
                  · rcases List.mem_append.mp hl with hl | hl
                    · exact Or.inl hl
                    · have hle : rid = rid0 := by simpa using hl
                      exact Or.inr ⟨n, List.mem_cons_self n rest, by rw [hn, hle]⟩
                  · exact Or.inr ⟨m, List.mem_cons_of_mem n hm, hres⟩
                · rintro (hl | ⟨m, hm, hres⟩)
                  · exact Or.inl (List.mem_append.mpr (Or.inl hl))
                  · rcases List.mem_cons.mp hm with hm | hm
                    · subst hm
                      rw [hn] at hres
                      have he : rid0 = rid := Option.some.inj hres
                      refine Or.inl (List.mem_append.mpr (Or.inr (by simp [he.symm])))
                    · exact Or.inr ⟨m, hm, hres⟩

theorem assignIndices_untouched (pairs : List (Nat × Vertex)) :
    ∀ (store : List (Nat × Vertex)) (i rid : Nat),
      rid ∉ pairs.map Prod.fst →
      dictGet? (assignIndices store i pairs) rid = dictGet? store rid := by
  induction pairs with
  | nil => intro store i rid hr; rfl
  | cons p rest ih =>
      intro store i rid hr
      rw [List.map_cons] at hr
      have hr1 : rid ≠ p.1 := fun hc => hr (List.mem_cons.mpr (Or.inl hc))
      have hr2 : rid ∉ rest.map Prod.fst := fun hc => hr (List.mem_cons.mpr (Or.inr hc))
      unfold assignIndices
      rw [ih _ (i + 1) rid hr2, dictGet?_dictModify, if_neg (fun hc => hr1 hc.symm)]

theorem assignIndices_get (pairs : List (Nat × Vertex)) :
    ∀ (store : List (Nat × Vertex)) (i j : Nat) (p : Nat × Vertex),
      (pairs.map Prod.fst).Nodup →
      pairs.get? j = some p →
      dictGet? (assignIndices store i pairs) p.1 =
        (dictGet? store p.1).map (fun v => { v with index := some (i + j) }) := by
  induction pairs with
  | nil => intro store i j p hnd hj; simp at hj
  | cons q rest ih =>
      intro store i j p hnd hj
      rw [List.map_cons] at hnd
      have hq : q.1 ∉ rest.map Prod.fst := (List.nodup_cons.mp hnd).1
      have hnd2 : (rest.map Prod.fst).Nodup := (List.nodup_cons.mp hnd).2
      cases j with
      | zero =>
          have hpq : q = p := by simpa using hj
          subst hpq
          unfold assignIndices
          rw [assignIndices_untouched rest _ (i + 1) q.1 hq]
          rw [dictGet?_dictModify, if_pos rfl]
          simp
      | succ j2 =>
          have hj2 : rest.get? j2 = some p := by simpa using hj
          unfold assignIndices
          rw [ih _ (i + 1) j2 p hnd2 hj2]
          have hp1 : ¬ q.1 = p.1 := by
            intro hc
            have hmemp : p ∈ rest := List.get?_mem hj2
            exact hq (hc ▸ List.mem_map_of_mem Prod.fst hmemp)
          rw [dictGet?_dictModify, if_neg hp1]
          have harith : i + 1 + j2 = i + (j2 + 1) := by omega
          simp only [harith]

/-- Claim C2: on a well-formed document (distinct heap records carry
distinct unique names, as the source's "uniq name" contract requires), a
successful `assign_vertexid` makes `valid_vertices` enumerate exactly the
distinct block-referenced records, without repetition, assigning the
record at position i the index i (hence the indices are 0..N-1, one per
distinct referenced record); records no block references are left
untouched (their index stays `None`) and never appear among the records
the vertices-section formatter renders. -/
theorem assign_vertexid_bijection (s t : BlockMeshDict)
    (hinj : NamesInj s.store) (h : s.assign_vertexid = some t) :
    (∀ rid, rid ∈ t.valid_vertices ↔ blockReferenced s rid)
    ∧ t.valid_vertices.Nodup
    ∧ (∀ i rid, t.valid_vertices.get? i = some rid →
         ∃ v, dictGet? t.store rid = some v ∧ v.index = some i)
    ∧ (∀ rid, ¬ blockReferenced s rid → dictGet? t.store rid = dictGet? s.store rid)
    ∧ (∀ rid v, ¬ blockReferenced s rid → dictGet? s.store rid = some v →
         some v ∉ format_vertices_entries t) := by
  unfold BlockMeshDict.assign_vertexid at h
  cases hg : gatherLoop s (blockVnames s) [] [] with
  | none => rw [hg] at h; cases h
  | some valid =>
      rw [hg] at h
      have ht : t = { s with
          valid_vertices := (pySorted valid).map Prod.fst
          store := assignIndices s.store 0 (pySorted valid) } := (Option.some.inj h).symm
      obtain ⟨q1, q2, q3⟩ := gatherLoop_spec s hinj (blockVnames s) [] [] valid hg
        (by simp) (by simp) (by simp) (by simp)
      have hperm : List.Perm (pySorted valid) valid := pySorted_perm valid
      have hpermf : List.Perm ((pySorted valid).map Prod.fst) (valid.map Prod.fst) :=
        hperm.map Prod.fst
      have hmem : ∀ rid, rid ∈ (pySorted valid).map Prod.fst ↔ blockReferenced s rid := by
        intro rid
        rw [hpermf.mem_iff, q3 rid]
        simp [blockReferenced]
      have hnodup : ((pySorted valid).map Prod.fst).Nodup := hpermf.nodup_iff.mpr q2
      have hvv : t.valid_vertices = (pySorted valid).map Prod.fst := by rw [ht]
      have hst : t.store = assignIndices s.store 0 (pySorted valid) := by rw [ht]
      have hpos : ∀ (j : Nat) (p : Nat × Vertex), (pySorted valid).get? j = some p →
          dictGet? t.store p.1 = some { p.2 with index := some j } := by
        intro j p hp
        have hcons : dictGet? s.store p.1 = some p.2 :=
          q1 p (hperm.mem_iff.mp (List.get?_mem hp))
        rw [hst, assignIndices_get (pySorted valid) s.store 0 j p hnodup hp, hcons]
        simp
      refine ⟨?_, ?_, ?_, ?_, ?_⟩
      · intro rid
        rw [hvv]
        exact hmem rid
      · rw [hvv]
        exact hnodup
      · intro i rid hi
        rw [hvv, List.get?_map] at hi
        cases hp : (pySorted valid).get? i with
        | none => rw [hp] at hi; cases hi
        | some p =>
            rw [hp] at hi
            have hpe : p.1 = rid := Option.some.inj hi
            exact ⟨{ p.2 with index := some i }, hpe ▸ hpos i p hp, rfl⟩
      · intro rid href
        rw [hst]
        apply assignIndices_untouched
        intro hc
        exact href ((hmem rid).mp hc)
      · intro rid v href hv hemem
        unfold format_vertices_entries at hemem
        obtain ⟨rid2, hr2mem, hr2eq⟩ := List.mem_map.mp hemem
        rw [hvv] at hr2mem
        have hr2ref : blockReferenced s rid2 := (hmem rid2).mp hr2mem
        obtain ⟨j, hj⟩ := List.get?_of_mem hr2mem
        rw [List.get?_map] at hj
        cases hp : (pySorted valid).get? j with
        | none => rw [hp] at hj; cases hj
        | some p =>
            rw [hp] at hj
            have hpe : p.1 = rid2 := Option.some.inj hj
            have hrec : dictGet? t.store rid2 = some { p.2 with index := some j } :=
              hpe ▸ hpos j p hp
            have hveq : v = { p.2 with index := some j } :=
              Option.some.inj ((hr2eq.symm.trans hrec))
            have hcons2 : dictGet? s.store rid2 = some p.2 :=
              q1 p (hperm.mem_iff.mp (List.get?_mem hp)) |>.symm.symm |> (hpe ▸ ·)
            have hnames : v.name = p.2.name := by rw [hveq]
            have : rid = rid2 := hinj rid rid2 v p.2 hv hcons2 hnames
            exact href (this ▸ hr2ref)

/-- A concrete document with three vertices of which two are referenced by
the single block. -/
def stateC2 : BlockMeshDict :=
  ((((BlockMeshDict.init.add_vertex (Vertex.init 0 0 0 "a" none) "a").1.add_vertex
      (Vertex.init 1 1 1 "b" none) "b").1.add_vertex
      (Vertex.init 2 2 2 "c" none) "c").1.add_hexblock
    ["a", "b", "a", "b", "a", "b", "a", "b"] (1, 1, 1) "blk" defaultGrading).1

/-- The result of `assign_vertexid` on `stateC2`. -/
def stateC2r : BlockMeshDict :=
  (stateC2.assign_vertexid).getD BlockMeshDict.init

/-- Witness for C2 on the concrete document. -/
theorem assign_vertexid_bijection_witness :
    NamesInj stateC2.store
    ∧ stateC2.assign_vertexid = some stateC2r
    ∧ ((∀ rid, rid ∈ stateC2r.valid_vertices ↔ blockReferenced stateC2 rid)
       ∧ stateC2r.valid_vertices.Nodup
       ∧ (∀ i rid, stateC2r.valid_vertices.get? i = some rid →
            ∃ v, dictGet? stateC2r.store rid = some v ∧ v.index = some i)
       ∧ (∀ rid, ¬ blockReferenced stateC2 rid →
            dictGet? stateC2r.store rid = dictGet? stateC2.store rid)
       ∧ (∀ rid v, ¬ blockReferenced stateC2 rid → dictGet? stateC2.store rid = some v →
            some v ∉ format_vertices_entries stateC2r)) :=
  ⟨NamesInj_of_nodup_names stateC2.store (by decide), by decide,
   assign_vertexid_bijection stateC2 stateC2r
     (NamesInj_of_nodup_names stateC2.store (by decide)) (by decide)⟩

/-- First boundary added without an explicit face list. -/
def stateC7a : BlockMeshDict := (BlockMeshDict.init.add_boundary "wall" "b1" none).1

/-- The first boundary object. -/
def boundaryC7a : Boundary := (BlockMeshDict.init.add_boundary "wall" "b1" none).2

/-- Second boundary added without an explicit face list. -/
def stateC7b : BlockMeshDict := (stateC7a.add_boundary "patch" "b2" none).1

/-- The second boundary object. -/
def boundaryC7b : Boundary := (stateC7a.add_boundary "patch" "b2" none).2

/-- A face appended to the first boundary only. -/
def faceC7 : Face := Face.mk ["w", "x", "y", "z"] "f1"

/-- The document after `add_face` on the first boundary only. -/
def stateC7c : BlockMeshDict := boundaryC7a.add_face stateC7b faceC7

/-- Claim C7 fails on the code: `add_boundary(type_, name, faces=[])`
evaluates its default list once at function definition, so two boundaries
created without an explicit face list hold the very same list object.
Appending a face to the first boundary makes the second boundary's face
list change from `[]` to the appended face as well — the claimed
independence does not hold. -/
theorem boundary_default_faces_shared :
    boundaryC7a.facesRef = boundaryC7b.facesRef
    ∧ boundaryC7a.faces stateC7b = some []
    ∧ boundaryC7b.faces stateC7b = some []
    ∧ boundaryC7a.faces stateC7c = some [faceC7]
    ∧ boundaryC7b.faces stateC7c = some [faceC7] := by
  decide
